import Mathlib

/-!
Verification of the Monitor engine of `lib/url_sources/s_canonize.py`
(tbbscraper): the task protocol of the render actor, the pause barrier,
the worker lifecycle manager, the banner-layout algorithm, the exit-signal
re-delivery policy and the fault accounting.

Python data is embedded shallowly: machine-level tuples placed on the
`queue.PriorityQueue` become an inductive `Task` together with the key
function realising Python's lexicographic tuple comparison; the mutable
counters and event flags of the Monitor become explicit record states;
Python strings become Lean `String`s.
-/

namespace Canonize

/-! ### Task protocol (`Monitor._DONE` .. `Monitor._EXIT`, lines 56-63)

Internal code numbers used for the output thread's work queue.
Lower numbers are higher message priorities (delivered first). -/

def PRIO_DONE : Nat := 4
def PRIO_STATUS : Nat := 3
def PRIO_REDRAW : Nat := 2
def PRIO_SUSPEND : Nat := 1
def PRIO_EXIT : Nat := 0

/-- The tuples placed on `Monitor._tasks`:
`(_EXIT, sig)`, `(_SUSPEND, sig)`, `(_REDRAW,)`, `(_STATUS, idx, text)`,
`(_DONE, quiesced)`. -/
inductive Task where
  | exit (sig : Nat)
  | suspend (sig : Nat)
  | redraw
  | status (idx : Nat) (text : String)
  | done (quiesced : Bool)
deriving DecidableEq, Repr

/-- The first component of each task tuple. -/
def Task.prio : Task → Nat
  | .exit _ => PRIO_EXIT
  | .suspend _ => PRIO_SUSPEND
  | .redraw => PRIO_REDRAW
  | .status _ _ => PRIO_STATUS
  | .done _ => PRIO_DONE

/-- The key under which `queue.PriorityQueue` (a binary heap using
Python's lexicographic tuple comparison) orders the task tuples:
priority first, then the numeric second component (signal number,
line index, or the boolean `quiesced` with `False < True`), then the
status text.  Components missing from a shorter tuple compare equal. -/
def Task.key : Task → Nat ×ₗ Nat ×ₗ String
  | .exit sig => toLex (PRIO_EXIT, toLex (sig, ""))
  | .suspend sig => toLex (PRIO_SUSPEND, toLex (sig, ""))
  | .redraw => toLex (PRIO_REDRAW, toLex (0, ""))
  | .status idx text => toLex (PRIO_STATUS, toLex (idx, text))
  | .done q => toLex (PRIO_DONE, toLex (cond q 1 0, ""))

/-- `Monitor._tasks.get()`: the priority queue delivers an element whose
key is minimal among all queued entries. -/
def popMin (q : List Task) : Option Task := q.argmin Task.key

/-- Recogniser for the `_EXIT` variant. -/
def Task.isExit : Task → Bool
  | .exit _ => true
  | _ => false

/-- A task the input thread can enqueue besides `_EXIT`: `_STATUS`,
`_REDRAW` or `_SUSPEND` (not `_DONE`). -/
def Task.isStatusRedrawSuspend : Task → Bool
  | .status _ _ => true
  | .redraw => true
  | .suspend _ => true
  | _ => false

/-! ### Monitor shared state (`Monitor.__init__`, lines 122-146)

The mutable fields of the Monitor touched by the worker-facing API and
the lifecycle wrapper.  `_stop_event` and `_pause_event` are *active
low*: the event being set means no stop (resp. pause) is requested.
The counters are Python integers, hence `Int`. -/

structure MonState where
  stopEventSet : Bool
  pauseEventSet : Bool
  nWork : Int
  active : Int
  lineIndexes : List (Nat × Nat)
  usedIndexes : List Nat
  workerExceptions : List (String × String)
  tasks : List Task
deriving Repr, DecidableEq

/-- `Monitor.report_status` (lines 176-181): look up the calling
thread's line index in `_line_indexes` and enqueue a `_STATUS` task.
(A thread with no registered index would raise `KeyError` in Python;
the model leaves the state unchanged in that unreachable case.) -/
def reportStatus (tid : Nat) (text : String) (st : MonState) : MonState :=
  match st.lineIndexes.lookup tid with
  | some i => { st with tasks := st.tasks ++ [Task.status i text] }
  | none => st

/-- Result of a `maybe_pause_or_stop` checkpoint call. -/
inductive CkOutcome where
  | proceed
  | exitThread
  | blocked
deriving Repr, DecidableEq

/-- `Monitor.maybe_pause_or_stop` (lines 198-226), up to the point
where the calling thread either returns, raises `SystemExit`
(`.exitThread`), or blocks on `_pause_event.wait()` (`.blocked`; the
returned state is the state at the moment of blocking).  In the pause
branch the worker decrements `_active_work_threads` under the lock,
enqueues `(_DONE, True)` exactly when the count reaches zero, and then
reports the `"\x00"` clear-status sentinel. -/
def maybePauseOrStop (tid : Nat) (st : MonState) : MonState × CkOutcome :=
  if st.stopEventSet = false then
    (reportStatus tid "\x00" st, .exitThread)
  else if st.pauseEventSet = false then
    (reportStatus tid "\x00"
      { st with active := st.active - 1,
                tasks := if st.active - 1 = 0 then st.tasks ++ [Task.done true]
                         else st.tasks },
      .blocked)
  else (st, .proceed)

/-- Re-entry to the active set after `_pause_event.wait()` returns
(lines 225-226). -/
def resumeFromPause (st : MonState) : MonState :=
  { st with active := st.active + 1 }

/-- A sequence of checkpoint calls by the workers named in `tids`,
keeping only the state (each call in the pause branch leaves its caller
blocked). -/
def pauseCalls (tids : List Nat) (st : MonState) : MonState :=
  tids.foldl (fun s t => (maybePauseOrStop t s).1) st

/-- Number of `(_DONE, True)` entries in a task list. -/
def countDoneTrue (ts : List Task) : Nat :=
  ts.countP (fun t => decide (t = Task.done true))

/-! ### Worker lifecycle (`Monitor._work_thread_fn`, lines 272-303) -/

/-- The `while True: if i not in used: break; i += 1` search for the
smallest free line index (lines 277-283), given enough fuel to
terminate (the loop always finds a free index at or below
`used.length`). -/
def findFreeFrom (used : List Nat) : Nat → Nat → Nat
  | 0, i => i
  | fuel+1, i => if i ∈ used then findFreeFrom used fuel (i+1) else i

/-- The index assigned to a newly started worker: the smallest
non-negative integer not in `_line_indexes_used`. -/
def findFreeIndex (used : List Nat) : Nat :=
  findFreeFrom used (used.length + 1) 0

/-- Prologue of `_work_thread_fn` (lines 273-283): under the counters
lock, increment both counters and register the smallest free line
index for the new thread. -/
def workThreadStart (tid : Nat) (st : MonState) : MonState :=
  let i := findFreeIndex st.usedIndexes
  { st with nWork := st.nWork + 1,
            active := st.active + 1,
            lineIndexes := (tid, i) :: st.lineIndexes,
            usedIndexes := i :: st.usedIndexes }

/-- The `except Exception` clause of `_work_thread_fn` (lines 288-292):
when `worker_fn` escapes with a fault (`some e`, `e` the formatted
exception info), record it in `_worker_exceptions` keyed by the
worker's name and report a summary status line; a clean return
(`none`) records nothing.  `name` keys the exception dict, `tid` the
line-index dict. -/
def workThreadCatch (name : String) (tid : Nat) (fault : Option String)
    (st : MonState) : MonState :=
  match fault with
  | none => st
  | some e =>
      reportStatus tid ("*** Uncaught exception: " ++ e)
        { st with workerExceptions := (name, e) :: st.workerExceptions }

/-- The `finally` clause of `_work_thread_fn` (lines 294-303): under
the counters lock, delete the thread's line index, return it to the
free pool, decrement both counters, and enqueue `(_DONE, False)` if
the live count just reached zero.  (A thread with no registered index
would raise `KeyError` in Python; unreachable.) -/
def workThreadFinishCore (tid i : Nat) (st : MonState) : MonState :=
  if st.nWork - 1 = 0 then
    { st with lineIndexes := st.lineIndexes.eraseP (fun p => p.1 == tid),
              usedIndexes := st.usedIndexes.erase i,
              nWork := st.nWork - 1,
              active := st.active - 1,
              tasks := st.tasks ++ [Task.done false] }
  else
    { st with lineIndexes := st.lineIndexes.eraseP (fun p => p.1 == tid),
              usedIndexes := st.usedIndexes.erase i,
              nWork := st.nWork - 1,
              active := st.active - 1 }

def workThreadFinish (tid : Nat) (st : MonState) : MonState :=
  match st.lineIndexes.lookup tid with
  | some i => workThreadFinishCore tid i st
  | none => st

/-! ### Banner layout (`Monitor._compute_banner_internal`, lines 307-350) -/

def spaces (k : Nat) : String := String.mk (List.replicate k ' ')

def dots (k : Nat) : String := String.mk (List.replicate k '.')

/-- The full message appended to the banner: the fixed help text
`_addmsg`, prefixed with `". "` when the caller's banner title is
non-empty (lines 315-318). -/
def bannerMsg (banner addmsg : String) : String :=
  if banner = "" then addmsg else ". " ++ addmsg

/-- Centering step of `_compute_banner_internal` (lines 338-350):
surround `full` with spaces up to width `w`, the extra space of an odd
remainder going to the right-hand pad (`pad2 = pad1 + " "`). -/
def centerIn (w : Nat) (full : String) : String :=
  if w - full.length = 0 then full
  else if (w - full.length) % 2 = 0 then
    spaces ((w - full.length) / 2) ++ full ++ spaces ((w - full.length) / 2)
  else
    spaces ((w - full.length) / 2) ++ full ++ spaces ((w - full.length) / 2 + 1)

/-- `Monitor._compute_banner_internal` (lines 307-350) for banner
title `banner`, help text `addmsg` and window width `w`.  Python's
slice `msg[n-w:]` is `drop (n-w)` and `banner[:-shortfall]` is
`take (length - shortfall)`. -/
def computeBannerInternal (banner addmsg : String) (w : Nat) : String :=
  if (bannerMsg banner addmsg).length > w then
    (bannerMsg banner addmsg).drop ((bannerMsg banner addmsg).length - w)
  else if banner ≠ "" ∧ banner.length + (bannerMsg banner addmsg).length > w then
    (if banner.length ≤ 2 then
      banner.take (banner.length
          - (banner.length + (bannerMsg banner addmsg).length - w))
        ++ bannerMsg banner addmsg
     else if w - (bannerMsg banner addmsg).length ≤ 2 then
      dots (w - (bannerMsg banner addmsg).length) ++ bannerMsg banner addmsg
     else
      banner.take (banner.length
          - (banner.length + (bannerMsg banner addmsg).length - w + 2))
        ++ ".." ++ bannerMsg banner addmsg)
  else
    centerIn w (if banner = "" then bannerMsg banner addmsg
                else banner ++ bannerMsg banner addmsg)

/-- Modelled from the spec's banner-layout wording, for comparison
with the code's `computeBannerInternal`: given width `W`, title `T`
and help text `H` (already separator-prefixed): if `len(H) > W`,
return the rightmost `W` characters of `H`; else if
`len(T)+len(H) > W`: if `len(T) ≤ 2`, right-truncate `T` by the
shortfall and append `H`; else if `W−len(H) ≤ 2`, fill with dots up to
`W−len(H)` and append `H`; else right-truncate `T` by `shortfall+2`
and append `".." + H`; else center `T+H` in `W` with the smaller
padding half on the left for an odd remainder. -/
def bannerSpecModel (w : Nat) (T H : String) : String :=
  if H.length > w then H.drop (H.length - w)
  else if T.length + H.length > w then
    (if T.length ≤ 2 then T.take (T.length - (T.length + H.length - w)) ++ H
     else if w - H.length ≤ 2 then dots (w - H.length) ++ H
     else T.take (T.length - (T.length + H.length - w + 2)) ++ ".." ++ H)
  else centerIn w (T ++ H)

/-! ### Exit-signal re-delivery (`Monitor._do_exit`, lines 419-426) -/

def SIGINT : Nat := 2

def SIGTERM : Nat := 15

/-- The externally visible steps `_do_exit` can take. -/
inductive ExitAction where
  | endwin
  | unblock (sig : Nat)
  | setDefault (sig : Nat)
  | killSelf (sig : Nat)
deriving DecidableEq, Repr

/-- `Monitor._do_exit` (lines 419-426), run on the `Done(false)` path
of the output loop: if the captured exit signal is 0 or `SIGINT`,
return immediately (no re-delivery); otherwise tear down curses,
unblock the signal, restore its default disposition and deliver it to
the process itself. -/
def doExit (signo : Nat) : List ExitAction :=
  if signo = 0 ∨ signo = SIGINT then []
  else [ExitAction.endwin, ExitAction.unblock signo,
        ExitAction.setDefault signo, ExitAction.killSelf signo]

/-! ### Worker-fault accounting (`Monitor._work_thread_fn` lines
288-292 and `Monitor.__init__` lines 165-172) -/

/-- One `_work_thread_fn` call per entry: worker name, thread ident,
and `some e` when `worker_fn` escaped with a fault formatted as `e`
(`none` for a clean return); folds the `except Exception` clause over
the Monitor state. -/
def runWorkerBodies (runs : List (String × Nat × Option String))
    (st : MonState) : MonState :=
  runs.foldl (fun s r => workThreadCatch r.1 r.2.1 r.2.2 s) st

/-- Number of entries of `_worker_exceptions` recorded under a given
worker name. -/
def countKey (name : String) (excs : List (String × String)) : Nat :=
  excs.countP (fun p => decide (p.1 = name))

/-- The fault-reporting part of the `finally` block of
`Monitor.__init__` (lines 165-170): one stderr record per accumulated
entry, in sorted key order, carrying the full trace information. -/
def teardownStderr (excs : List (String × String)) : List String :=
  (excs.mergeSort (fun a b => decide (a.1 ≤ b.1))).map
    (fun p => "Exception in thread " ++ p.1 ++ ":\n" ++ p.2 ++ "\n")

/-- Lines 171-172: if any worker faulted (and no other exception is
propagating), the process exits with `SystemExit(1)`. -/
def finalExitStatus (excs : List (String × String)) : Option Nat :=
  if excs.isEmpty then none else some 1

/-! ### Render-actor line state (`Monitor._do_status`, lines 355-371)

Only the stored screen state (`_lines`, `_line_attrs`) is modelled;
the curses drawing calls mutate the terminal, not the state. -/

/-- Display attribute of a status line (`curses.A_NORMAL` /
`curses.A_BOLD`). -/
inductive LineAttr where
  | normal
  | bold
deriving DecidableEq, Repr

structure Screen where
  lines : List String
  lineAttrs : List LineAttr
deriving DecidableEq, Repr

/-- `k` iterations of the growth loop body of `_do_status`
(lines 356-358): append an empty line and a normal attribute. -/
def padToAux : Nat → Screen → Screen
  | 0, s => s
  | k+1, s => padToAux k ⟨s.lines ++ [""], s.lineAttrs ++ [LineAttr.normal]⟩

/-- The `while idx >= len(self._lines)` growth loop of `_do_status`,
which runs exactly `idx + 1 - len(lines)` times. -/
def padTo (s : Screen) (idx : Nat) : Screen :=
  padToAux (idx + 1 - s.lines.length) s

/-- `Monitor._do_status` (lines 355-371), state part: grow the line
table to cover `idx`; then the NUL sentinel `"\x00"` resets the line's
attribute to normal while any other text replaces the stored line
text.  (The trailing `addnstr`/`clrtoeol`/`refresh` calls repaint the
visible row and do not touch the stored state.) -/
def doStatus (s : Screen) (idx : Nat) (text : String) : Screen :=
  if text = "\x00" then
    { padTo s idx with lineAttrs := (padTo s idx).lineAttrs.set idx LineAttr.normal }
  else
    { padTo s idx with lines := (padTo s idx).lines.set idx text }

/-- The stored text of line `idx` (empty when the table does not reach
`idx`, as a freshly grown slot holds `""`). -/
def lineAt (s : Screen) (idx : Nat) : String := s.lines.getD idx ""

/-- The render actor processing a sequence of status reports for one
line index, in order. -/
def applyReports (s : Screen) (idx : Nat) (reports : List String) : Screen :=
  reports.foldl (fun sc t => doStatus sc idx t) s

/-- The last report in the sequence that is not the NUL sentinel
(falling back to `init` when every report is the sentinel). -/
def lastNonNulFrom (init : String) (reports : List String) : String :=
  reports.foldl (fun acc t => if t = "\x00" then acc else t) init

/-! ### Render-actor fault handling (`Monitor._output_thread_fn`,
lines 478-488) -/

/-- The `except BaseException` handler of the output loop: if
`_stop_event` is cleared (a stop is already in progress), the error
propagates and ends the run; otherwise it is swallowed — the stop
event is cleared, `_addmsg` becomes the crashing message built from
the error's type name and text, a full redraw is forced, and the loop
keeps running.  The `ok` value is (new `_stop_event` state, new
`_addmsg`, whether a redraw was forced). -/
def outputLoopHandleError (stopEventSet : Bool) (ename emsg : String) :
    Except String (Bool × String × Bool) :=
  if stopEventSet = false then Except.error ename
  else Except.ok (false, "*** " ++ ename ++ ":" ++ emsg ++ " *** Crashing.", true)

/-! ### Theorems -/

theorem Task.key_fst (t : Task) : (ofLex t.key).1 = t.prio := by
  cases t <;> rfl

theorem Task.prio_lt_of_key_lt {a b : Task} (h : a.prio < b.prio) :
    a.key < b.key := by
  have := Prod.Lex.lt_iff (ofLex a.key) (ofLex b.key)
  cases a <;> cases b <;>
    exact (Prod.Lex.lt_iff _ _).mpr (Or.inl h)

theorem Task.key_le_of_prio_lt {a b : Task} (h : a.prio < b.prio) :
    a.key ≤ b.key := (Task.prio_lt_of_key_lt h).le

theorem Task.not_key_le_of_prio_lt {a b : Task} (h : a.prio < b.prio) :
    ¬ b.key ≤ a.key := not_le_of_lt (Task.prio_lt_of_key_lt h)

theorem Task.status_key_lt {i j : Nat} (s t : String) (h : i < j) :
    (Task.status i s).key < (Task.status j t).key := by
  exact (Prod.Lex.lt_iff _ _).mpr (Or.inr ⟨rfl, (Prod.Lex.lt_iff _ _).mpr (Or.inl h)⟩)

theorem prio_exit_lt_of_isStatusRedrawSuspend {t : Task}
    (h : t.isStatusRedrawSuspend = true) (s : Nat) :
    (Task.exit s).prio < t.prio := by
  cases t <;> simp [Task.isStatusRedrawSuspend] at h ⊢ <;>
    simp [Task.prio, PRIO_EXIT, PRIO_SUSPEND, PRIO_REDRAW, PRIO_STATUS]

/-- **C1.** Tasks are delivered strictly by priority class in the total
order Exit < Suspend < Redraw < Status < Done, and within the Status
class by line index: (a) the queue always delivers an element of
minimal key; (b) a strictly smaller priority number means a strictly
smaller key, with `_EXIT = 0 < _SUSPEND = 1 < _REDRAW = 2 < _STATUS = 3
< _DONE = 4`; (c) among Status entries a smaller line index means a
smaller key; (d) for any queue containing an `_EXIT` entry whose other
entries are all `_STATUS`/`_REDRAW`/`_SUSPEND`, the dequeued task is an
`_EXIT` task. -/
theorem exit_dequeued_before_status_redraw_suspend :
    (∀ (q : List Task) (x : Task), popMin q = some x →
        x ∈ q ∧ ∀ t ∈ q, x.key ≤ t.key) ∧
    (∀ a b : Task, a.prio < b.prio → a.key < b.key) ∧
    (PRIO_EXIT < PRIO_SUSPEND ∧ PRIO_SUSPEND < PRIO_REDRAW ∧
      PRIO_REDRAW < PRIO_STATUS ∧ PRIO_STATUS < PRIO_DONE) ∧
    (∀ (i j : Nat) (s t : String), i < j →
        (Task.status i s).key < (Task.status j t).key) ∧
    (∀ (q : List Task) (s : Nat), Task.exit s ∈ q →
        (∀ t ∈ q, t.isExit = true ∨ t.isStatusRedrawSuspend = true) →
        ∃ x, popMin q = some x ∧ x.isExit = true) := by
  refine ⟨?_, ?_, ?_, ?_, ?_⟩
  · intro q x hx
    exact ⟨List.argmin_mem hx, fun t ht => List.le_of_mem_argmin ht hx⟩
  · intro a b h
    exact Task.prio_lt_of_key_lt h
  · exact ⟨Nat.zero_lt_one, by decide, by decide, by decide⟩
  · intro i j s t h
    exact Task.status_key_lt s t h
  · intro q s hmem hall
    cases hq : popMin q with
    | none =>
        exact absurd (List.argmin_eq_none.mp hq ▸ hmem) (List.not_mem_nil _)
    | some x =>
        refine ⟨x, rfl, ?_⟩
        rcases hall x (List.argmin_mem hq) with hx | hx
        · exact hx
        · exfalso
          have hle : x.key ≤ (Task.exit s).key := List.le_of_mem_argmin hmem hq
          exact Task.not_key_le_of_prio_lt
            (prio_exit_lt_of_isStatusRedrawSuspend hx s) hle

theorem reportStatus_preserves (tid : Nat) (text : String) (st : MonState) :
    (reportStatus tid text st).stopEventSet = st.stopEventSet ∧
    (reportStatus tid text st).pauseEventSet = st.pauseEventSet ∧
    (reportStatus tid text st).active = st.active ∧
    countDoneTrue (reportStatus tid text st).tasks = countDoneTrue st.tasks := by
  unfold reportStatus
  cases h : st.lineIndexes.lookup tid <;>
    simp [countDoneTrue, List.countP_append, List.countP_cons]

theorem pauseStep_spec (tid : Nat) (st : MonState)
    (hstop : st.stopEventSet = true) (hpause : st.pauseEventSet = false) :
    (maybePauseOrStop tid st).1.stopEventSet = true ∧
    (maybePauseOrStop tid st).1.pauseEventSet = false ∧
    (maybePauseOrStop tid st).1.active = st.active - 1 ∧
    countDoneTrue (maybePauseOrStop tid st).1.tasks =
      countDoneTrue st.tasks + (if st.active = 1 then 1 else 0) := by
  have hs : ¬ (st.stopEventSet = false) := by simp [hstop]
  unfold maybePauseOrStop
  rw [if_neg hs, if_pos hpause]
  obtain ⟨r1, r2, r3, r4⟩ := reportStatus_preserves tid "\x00"
    { st with active := st.active - 1,
              tasks := if st.active - 1 = 0 then st.tasks ++ [Task.done true]
                       else st.tasks }
  refine ⟨r1.trans hstop, r2.trans hpause, r3, ?_⟩
  rw [r4]
  by_cases h : st.active = 1
  · have h0 : st.active - 1 = 0 := by omega
    rw [if_pos h]
    show countDoneTrue (if st.active - 1 = 0 then st.tasks ++ [Task.done true]
      else st.tasks) = _
    rw [if_pos h0]
    simp [countDoneTrue, List.countP_append, List.countP_cons]
  · have h0 : ¬ (st.active - 1 = 0) := by omega
    rw [if_neg h]
    show countDoneTrue (if st.active - 1 = 0 then st.tasks ++ [Task.done true]
      else st.tasks) = _
    rw [if_neg h0]
    simp

theorem pauseCalls_spec (tids : List Nat) :
    ∀ st : MonState, st.stopEventSet = true → st.pauseEventSet = false →
    (tids.length : Int) ≤ st.active →
    (pauseCalls tids st).active = st.active - tids.length ∧
    countDoneTrue (pauseCalls tids st).tasks =
      countDoneTrue st.tasks +
        (if (tids.length : Int) = st.active ∧ tids.length ≠ 0 then 1 else 0) := by
  induction tids with
  | nil =>
      intro st _ _ _
      simp [pauseCalls]
  | cons t rest ih =>
      intro st h1 h2 h3
      obtain ⟨p1, p2, p3, p4⟩ := pauseStep_spec t st h1 h2
      have hstep : pauseCalls (t :: rest) st = pauseCalls rest (maybePauseOrStop t st).1 :=
        rfl
      have hlen : (rest.length : Int) ≤ (maybePauseOrStop t st).1.active := by
        rw [p3]
        simp only [List.length_cons] at h3
        push_cast at h3 ⊢
        omega
      obtain ⟨q1, q2⟩ := ih (maybePauseOrStop t st).1 p1 p2 hlen
      constructor
      · rw [hstep, q1, p3]
        simp only [List.length_cons]
        push_cast
        ring
      · rw [hstep, q2, p4, p3]
        simp only [List.length_cons] at h3 ⊢
        push_cast at h3 ⊢
        split_ifs <;> omega

/-- **C2.** For a pause cycle in which each of the `tids` workers
reaches the checkpoint while pause is requested (pause gate cleared,
stop gate not set) starting from an active count of `N ≥ 1`: the
active count ends at `N - tids.length`; exactly one `(_DONE, True)` is
in the queue if all `N` workers have arrived and none otherwise (so it
is enqueued precisely at the transition of the active count to 0,
never before, and never twice); and every run factors through the
state after any prefix of the calls, so the count after `k < N` calls
really is the count at the intermediate instant. -/
theorem done_true_enqueued_once_per_pause_cycle
    (N : Nat) (tids : List Nat) (li : List (Nat × Nat)) (ui : List Nat)
    (hN : 0 < N) (hlen : tids.length ≤ N) :
    (pauseCalls tids ⟨true, false, N, N, li, ui, [], []⟩).active
        = (N : Int) - tids.length ∧
    countDoneTrue (pauseCalls tids ⟨true, false, N, N, li, ui, [], []⟩).tasks
        = (if tids.length = N then 1 else 0) ∧
    (∀ pre suf, tids = pre ++ suf →
        pauseCalls tids ⟨true, false, N, N, li, ui, [], []⟩
          = pauseCalls suf (pauseCalls pre ⟨true, false, N, N, li, ui, [], []⟩)) := by
  have h3 : (tids.length : Int) ≤ (⟨true, false, N, N, li, ui, [], []⟩ : MonState).active := by
    show (tids.length : Int) ≤ (N : Int)
    exact_mod_cast hlen
  obtain ⟨ha, hc⟩ := pauseCalls_spec tids ⟨true, false, N, N, li, ui, [], []⟩ rfl rfl h3
  refine ⟨ha, ?_, ?_⟩
  · rw [hc]
    show (0 : Nat) + _ = _
    split_ifs with h1 h2 h2 <;> push_cast at h1 ⊢ <;> omega
  · intro pre suf hsplit
    subst hsplit
    simp [pauseCalls, List.foldl_append]

/-- Witness for C2: three workers, all three reach the checkpoint;
active ends at 0 with exactly one `(_DONE, True)` enqueued. -/
theorem done_true_enqueued_once_per_pause_cycle_witness :
    (pauseCalls [10, 11, 12] ⟨true, false, 3, 3, [], [], [], []⟩).active = 0 ∧
    countDoneTrue (pauseCalls [10, 11, 12] ⟨true, false, 3, 3, [], [], [], []⟩).tasks
      = 1 := by
  have h := done_true_enqueued_once_per_pause_cycle 3 [10, 11, 12] [] []
    (by decide) (by decide)
  exact ⟨by simpa using h.1, by simpa using h.2.1⟩

/-- **C3.** When a worker calls the checkpoint while the stop gate is
set (`_stop_event` cleared), the call enqueues the worker's
clear-status report (the `"\x00"` sentinel, which the render actor
processes by resetting that line's display attribute) and terminates
the calling thread (`SystemExit`, `.exitThread`); and the lifecycle
wrapper's `finally` clause still performs its cleanup: the thread's
line index is deleted and returned to the free pool and both counters
are decremented. -/
theorem stop_gate_reports_clear_and_terminates :
    (∀ (tid : Nat) (st : MonState), st.stopEventSet = false →
        maybePauseOrStop tid st = (reportStatus tid "\x00" st, CkOutcome.exitThread)) ∧
    (∀ (tid i : Nat) (st : MonState), st.lineIndexes.lookup tid = some i →
        (workThreadFinish tid st).lineIndexes
            = st.lineIndexes.eraseP (fun p => p.1 == tid) ∧
        (workThreadFinish tid st).usedIndexes = st.usedIndexes.erase i ∧
        (workThreadFinish tid st).nWork = st.nWork - 1 ∧
        (workThreadFinish tid st).active = st.active - 1) := by
  constructor
  · intro tid st h
    simp [maybePauseOrStop, h]
  · intro tid i st h
    simp only [workThreadFinish, workThreadFinishCore, h]
    split_ifs <;> exact ⟨rfl, rfl, rfl, rfl⟩

/-- Witness for C3: a stopped Monitor with worker 5 on line 0. -/
theorem stop_gate_reports_clear_and_terminates_witness :
    maybePauseOrStop 5 ⟨false, true, 1, 1, [(5, 0)], [0], [], []⟩
        = (reportStatus 5 "\x00" ⟨false, true, 1, 1, [(5, 0)], [0], [], []⟩,
           CkOutcome.exitThread) ∧
    (workThreadFinish 5 ⟨false, true, 1, 1, [(5, 0)], [0], [], []⟩).usedIndexes
        = [] := by
  constructor
  · exact stop_gate_reports_clear_and_terminates.1 5 _ rfl
  · have h := (stop_gate_reports_clear_and_terminates.2 5 0
      ⟨false, true, 1, 1, [(5, 0)], [0], [], []⟩ rfl).2.1
    simpa using h

/-- Witness for C1: a queue holding a status, a redraw, a suspend and
an `_EXIT` task dequeues an `_EXIT` task. -/
theorem exit_dequeued_before_status_redraw_suspend_witness :
    ∃ x, popMin [Task.status 0 "working", Task.redraw, Task.suspend 20,
        Task.exit 15] = some x ∧ x.isExit = true :=
  exit_dequeued_before_status_redraw_suspend.2.2.2.2
    [Task.status 0 "working", Task.redraw, Task.suspend 20, Task.exit 15] 15
    (by decide) (by decide)

theorem findFreeFrom_spec (used : List Nat) :
    ∀ (fuel i : Nat), (∃ j, i ≤ j ∧ j < i + fuel ∧ j ∉ used) →
    findFreeFrom used fuel i ∉ used ∧ i ≤ findFreeFrom used fuel i ∧
      ∀ k, i ≤ k → k < findFreeFrom used fuel i → k ∈ used := by
  intro fuel
  induction fuel with
  | zero =>
      intro i ⟨j, hj1, hj2, _⟩
      omega
  | succ fuel ih =>
      intro i ⟨j, hj1, hj2, hj3⟩
      have hunf : findFreeFrom used (fuel+1) i
          = if i ∈ used then findFreeFrom used fuel (i+1) else i := rfl
      rw [hunf]
      by_cases hi : i ∈ used
      · rw [if_pos hi]
        have hji : j ≠ i := fun h => hj3 (h ▸ hi)
        obtain ⟨a, b, c⟩ := ih (i+1) ⟨j, by omega, by omega, hj3⟩
        refine ⟨a, by omega, ?_⟩
        intro k hk1 hk2
        rcases Nat.eq_or_lt_of_le hk1 with h | h
        · exact h ▸ hi
        · exact c k h hk2
      · rw [if_neg hi]
        exact ⟨hi, le_refl i, fun k hk1 hk2 => absurd hk2 (by omega)⟩

theorem exists_unused_le_length (used : List Nat) :
    ∃ j, j < used.length + 1 ∧ j ∉ used := by
  by_contra h
  push_neg at h
  have hsub : List.range (used.length + 1) ⊆ used := fun j hj =>
    h j (List.mem_range.mp hj)
  have hle := (List.subperm_of_subset (List.nodup_range _) hsub).length_le
  simp only [List.length_range] at hle
  omega

theorem findFreeIndex_spec (used : List Nat) :
    findFreeIndex used ∉ used ∧ ∀ k < findFreeIndex used, k ∈ used := by
  obtain ⟨j, hj1, hj2⟩ := exists_unused_le_length used
  obtain ⟨a, _, c⟩ := findFreeFrom_spec used (used.length + 1) 0
    ⟨j, Nat.zero_le j, by omega, hj2⟩
  exact ⟨a, fun k hk => c k (Nat.zero_le k) hk⟩

/-- Line indices of live workers are pairwise distinct (keys and
assigned indices both without repetition) and every assigned index is
in the used pool. -/
def WIndexInv (st : MonState) : Prop :=
  (st.lineIndexes.map Prod.fst).Nodup ∧
  (st.lineIndexes.map Prod.snd).Nodup ∧
  ∀ p ∈ st.lineIndexes, p.2 ∈ st.usedIndexes

instance (st : MonState) : Decidable (WIndexInv st) := by
  unfold WIndexInv
  infer_instance

theorem lookup_mem {l : List (Nat × Nat)} {tid i : Nat}
    (h : l.lookup tid = some i) : (tid, i) ∈ l := by
  induction l with
  | nil => simp [List.lookup] at h
  | cons a l ih =>
      obtain ⟨k, v⟩ := a
      rw [List.lookup] at h
      split at h
      · rename_i heq
        have h1 : tid = k := by simpa using heq
        have h2 : v = i := by simpa using h
        subst h1
        subst h2
        exact List.mem_cons_self _ _
      · exact List.mem_cons_of_mem _ (ih h)

theorem key_unique {l : List (Nat × Nat)} (h : (l.map Prod.fst).Nodup)
    {p q : Nat × Nat} (hp : p ∈ l) (hq : q ∈ l) (hk : p.1 = q.1) : p = q := by
  induction l with
  | nil => simp at hp
  | cons a l ih =>
      rw [List.map_cons, List.nodup_cons] at h
      rcases List.mem_cons.mp hp with rfl | hp' <;>
        rcases List.mem_cons.mp hq with rfl | hq'
      · rfl
      · exact absurd (hk ▸ List.mem_map_of_mem Prod.fst hq') h.1
      · exact absurd (hk ▸ List.mem_map_of_mem Prod.fst hp') h.1
      · exact ih h.2 hp' hq'

theorem workThreadStart_lineIndexes (tid : Nat) (st : MonState) :
    (workThreadStart tid st).lineIndexes
      = (tid, findFreeIndex st.usedIndexes) :: st.lineIndexes ∧
    (workThreadStart tid st).usedIndexes
      = findFreeIndex st.usedIndexes :: st.usedIndexes := ⟨rfl, rfl⟩

theorem workThreadStart_inv (tid : Nat) (st : MonState)
    (hinv : WIndexInv st) (hfresh : tid ∉ st.lineIndexes.map Prod.fst) :
    WIndexInv (workThreadStart tid st) := by
  obtain ⟨h1, h2, h3⟩ := hinv
  obtain ⟨hfree, _⟩ := findFreeIndex_spec st.usedIndexes
  refine ⟨?_, ?_, ?_⟩
  · show (((tid, findFreeIndex st.usedIndexes) :: st.lineIndexes).map Prod.fst).Nodup
    rw [List.map_cons, List.nodup_cons]
    exact ⟨hfresh, h1⟩
  · show (((tid, findFreeIndex st.usedIndexes) :: st.lineIndexes).map Prod.snd).Nodup
    rw [List.map_cons, List.nodup_cons]
    refine ⟨fun hmem => ?_, h2⟩
    obtain ⟨p, hp, hpe⟩ := List.mem_map.mp hmem
    have hpe' : p.2 = findFreeIndex st.usedIndexes := hpe
    apply hfree
    rw [← hpe']
    exact h3 p hp
  · intro p hp
    rcases List.mem_cons.mp hp with rfl | hp'
    · exact List.mem_cons_self _ _
    · exact List.mem_cons_of_mem _ (h3 p hp')

theorem eraseP_key_inv (l : List (Nat × Nat)) (used : List Nat) (tid i : Nat)
    (h1 : (l.map Prod.fst).Nodup) (h2 : (l.map Prod.snd).Nodup)
    (h3 : ∀ p ∈ l, p.2 ∈ used) (hl : l.lookup tid = some i) :
    ((l.eraseP (fun p => p.1 == tid)).map Prod.fst).Nodup ∧
    ((l.eraseP (fun p => p.1 == tid)).map Prod.snd).Nodup ∧
    ∀ p ∈ l.eraseP (fun p => p.1 == tid), p.2 ∈ used.erase i := by
  have hmem : (tid, i) ∈ l := lookup_mem hl
  obtain ⟨a, l₁, l₂, hl₁, hpa', hsplit, herase⟩ :=
    @List.exists_of_eraseP (Nat × Nat) (fun p => p.1 == tid) l (tid, i) hmem
      (by simp)
  have ha : a = (tid, i) := by
    refine key_unique h1 ?_ hmem ?_
    · rw [hsplit]
      exact List.mem_append_right l₁ (List.mem_cons_self a l₂)
    · simpa using hpa'
  subst ha
  rw [hsplit, List.map_append, List.map_cons] at h1 h2
  have h1' := List.nodup_middle.mp h1
  have h2' := List.nodup_middle.mp h2
  rw [List.nodup_cons] at h1' h2'
  rw [herase]
  refine ⟨?_, ?_, ?_⟩
  · rw [List.map_append]
    exact h1'.2
  · rw [List.map_append]
    exact h2'.2
  · intro p hp
    have hpl : p ∈ l := by
      rw [hsplit]
      rcases List.mem_append.mp hp with h | h
      · exact List.mem_append_left _ h
      · exact List.mem_append_right _ (List.mem_cons_of_mem _ h)
    have hne : p.2 ≠ i := by
      intro he
      apply h2'.1
      have : p.2 ∈ (l₁ ++ l₂).map Prod.snd := List.mem_map_of_mem Prod.snd hp
      rw [List.map_append] at this
      exact he ▸ this
    exact (List.mem_erase_of_ne hne).mpr (h3 p hpl)

theorem workThreadFinish_inv (tid : Nat) (st : MonState)
    (hinv : WIndexInv st) : WIndexInv (workThreadFinish tid st) := by
  obtain ⟨h1, h2, h3⟩ := hinv
  unfold workThreadFinish
  cases hl : st.lineIndexes.lookup tid with
  | none => exact ⟨h1, h2, h3⟩
  | some i =>
      obtain ⟨k1, k2, k3⟩ := eraseP_key_inv st.lineIndexes st.usedIndexes tid i
        h1 h2 h3 hl
      show WIndexInv (workThreadFinishCore tid i st)
      unfold workThreadFinishCore
      by_cases hw : st.nWork - 1 = 0
      · rw [if_pos hw]
        exact ⟨k1, k2, k3⟩
      · rw [if_neg hw]
        exact ⟨k1, k2, k3⟩

/-- **C4.** (a) A newly started worker is assigned the smallest
non-negative line index not currently in use; (b) starting a worker
with a fresh thread ident preserves the uniqueness invariant (live
workers hold pairwise distinct line indices, all of them in the used
pool) and registers exactly the found free index; (c) a worker's exit
(the `finally` cleanup) preserves the invariant, the index being
returned to the pool only there; (d) concretely, after worker 101
(holding index 0) exits while worker 102 (index 1) stays live, a
worker 103 started afterwards receives index 0 again rather than a
fresh higher index. -/
theorem smallest_unused_index_assigned_and_recycled :
    (∀ used : List Nat, findFreeIndex used ∉ used ∧
        ∀ k < findFreeIndex used, k ∈ used) ∧
    (∀ (tid : Nat) (st : MonState), WIndexInv st →
        tid ∉ st.lineIndexes.map Prod.fst →
        WIndexInv (workThreadStart tid st) ∧
        (workThreadStart tid st).lineIndexes.lookup tid
          = some (findFreeIndex st.usedIndexes)) ∧
    (∀ (tid : Nat) (st : MonState), WIndexInv st →
        WIndexInv (workThreadFinish tid st)) ∧
    (List.lookup 103 (workThreadStart 103 (workThreadFinish 101
        (workThreadStart 102 (workThreadStart 101
          ⟨true, true, 0, 0, [], [], [], []⟩)))).lineIndexes = some 0 ∧
     List.lookup 101 (workThreadStart 101
        (⟨true, true, 0, 0, [], [], [], []⟩ : MonState)).lineIndexes = some 0 ∧
     List.lookup 102 (workThreadStart 102 (workThreadStart 101
        (⟨true, true, 0, 0, [], [], [], []⟩ : MonState))).lineIndexes = some 1) := by
  refine ⟨findFreeIndex_spec, ?_, workThreadFinish_inv, by decide, by decide, by decide⟩
  intro tid st hinv hfresh
  refine ⟨workThreadStart_inv tid st hinv hfresh, ?_⟩
  show ((tid, findFreeIndex st.usedIndexes) :: st.lineIndexes).lookup tid = _
  rw [List.lookup]
  simp

/-- Witness for C4: the invariant-preservation parts applied to the
concrete two-worker state. -/
theorem smallest_unused_index_assigned_and_recycled_witness :
    (WIndexInv (workThreadStart 102 ⟨true, true, 1, 1, [(101, 0)], [0], [], []⟩) ∧
      (workThreadStart 102
        (⟨true, true, 1, 1, [(101, 0)], [0], [], []⟩ : MonState)).lineIndexes.lookup 102
        = some 1) ∧
    WIndexInv (workThreadFinish 101 ⟨true, true, 1, 1, [(101, 0)], [0], [], []⟩) := by
  constructor
  · have h := smallest_unused_index_assigned_and_recycled.2.1 102
      ⟨true, true, 1, 1, [(101, 0)], [0], [], []⟩ (by decide) (by decide)
    exact ⟨h.1, by simpa using h.2⟩
  · exact smallest_unused_index_assigned_and_recycled.2.2.1 101
      ⟨true, true, 1, 1, [(101, 0)], [0], [], []⟩ (by decide)

theorem str_empty_append (s : String) : "" ++ s = s := by
  obtain ⟨l⟩ := s
  rfl

theorem computeBanner_eq_spec (banner addmsg : String) (w : Nat) :
    computeBannerInternal banner addmsg w
      = bannerSpecModel w banner (bannerMsg banner addmsg) := by
  unfold computeBannerInternal bannerSpecModel
  by_cases h1 : (bannerMsg banner addmsg).length > w
  · rw [if_pos h1, if_pos h1]
  · rw [if_neg h1, if_neg h1]
    by_cases hb : banner = ""
    · subst hb
      have h2 : ¬(("" : String) ≠ "" ∧
          ("" : String).length + (bannerMsg "" addmsg).length > w) :=
        fun hc => hc.1 rfl
      have h2' : ¬(("" : String).length + (bannerMsg "" addmsg).length > w) := by
        simpa using h1
      rw [if_neg h2, if_neg h2', if_pos rfl, str_empty_append]
    · by_cases h2 : banner.length + (bannerMsg banner addmsg).length > w
      · rw [if_pos ⟨hb, h2⟩, if_pos h2]
      · rw [if_neg (fun hc => h2 hc.2), if_neg h2, if_neg hb]

/-- **C5.** The banner-layout function agrees, for every width, title
and help text, with the algorithm as the spec words it (rightmost-W
truncation of an oversized help text; the three right-truncation/dots
cases when title plus help overflow; centering with the smaller pad on
the left otherwise); and in particular for width 40, title
`"Canonicalizing URLs"` and help `". Press ESC to stop."` the output
has length exactly 40 and is the centered title+help with the single
odd pad space on the right. -/
theorem banner_layout_matches_spec :
    (∀ (banner addmsg : String) (w : Nat),
        computeBannerInternal banner addmsg w
          = bannerSpecModel w banner (bannerMsg banner addmsg)) ∧
    (computeBannerInternal "Canonicalizing URLs" "Press ESC to stop." 40).length
        = 40 ∧
    computeBannerInternal "Canonicalizing URLs" "Press ESC to stop." 40
        = "Canonicalizing URLs. Press ESC to stop. " := by
  refine ⟨computeBanner_eq_spec, ?_, ?_⟩ <;> decide

/-- **C6.** On the `Done(false)` shutdown path a signal is delivered
to the process itself iff the captured exit signal is nonzero and is
not `SIGINT`; when it is delivered, the default disposition is
restored first (the action list runs left to right); `Exit(0)` and
`Exit(SIGINT)` never re-deliver while `Exit(SIGTERM)` does. -/
theorem exit_signal_redelivered_iff_nonzero_non_sigint :
    (∀ s, ExitAction.killSelf s ∈ doExit s ↔ (s ≠ 0 ∧ s ≠ SIGINT)) ∧
    (∀ s, s ≠ 0 → s ≠ SIGINT →
        doExit s = [ExitAction.endwin, ExitAction.unblock s,
                    ExitAction.setDefault s, ExitAction.killSelf s]) ∧
    doExit 0 = [] ∧ doExit SIGINT = [] ∧
    ExitAction.killSelf SIGTERM ∈ doExit SIGTERM := by
  refine ⟨?_, ?_, by decide, by decide, by decide⟩
  · intro s
    unfold doExit
    by_cases h : s = 0 ∨ s = SIGINT
    · rw [if_pos h]
      simp only [List.not_mem_nil, false_iff]
      intro hc
      rcases h with h | h
      · exact hc.1 h
      · exact hc.2 h
    · rw [if_neg h]
      push_neg at h
      simp [h]
  · intro s h0 hi
    unfold doExit
    rw [if_neg (by simp [h0, hi])]

/-- Witness for C6: the `SIGTERM` instance of the re-delivery action
sequence, default disposition restored before the kill. -/
theorem exit_signal_redelivered_iff_nonzero_non_sigint_witness :
    doExit 15 = [ExitAction.endwin, ExitAction.unblock 15,
                 ExitAction.setDefault 15, ExitAction.killSelf 15] :=
  exit_signal_redelivered_iff_nonzero_non_sigint.2.1 15 (by decide) (by decide)

theorem reportStatus_workerExceptions (tid : Nat) (text : String) (st : MonState) :
    (reportStatus tid text st).workerExceptions = st.workerExceptions := by
  unfold reportStatus
  cases st.lineIndexes.lookup tid <;> rfl

theorem reportStatus_tasks {tid i : Nat} {st : MonState}
    (h : st.lineIndexes.lookup tid = some i) (text : String) :
    (reportStatus tid text st).tasks = st.tasks ++ [Task.status i text] := by
  unfold reportStatus
  rw [h]

theorem workThreadCatch_excs (name : String) (tid : Nat) (st : MonState) :
    (workThreadCatch name tid none st).workerExceptions = st.workerExceptions ∧
    ∀ e, (workThreadCatch name tid (some e) st).workerExceptions
        = (name, e) :: st.workerExceptions := by
  refine ⟨rfl, fun e => ?_⟩
  unfold workThreadCatch
  rw [reportStatus_workerExceptions]

theorem countKey_cons (name n e : String) (excs : List (String × String)) :
    countKey name ((n, e) :: excs)
      = countKey name excs + (if n = name then 1 else 0) := by
  unfold countKey
  rw [List.countP_cons]
  simp

theorem countKey_runWorkerBodies_unchanged
    (runs : List (String × Nat × Option String)) :
    ∀ (st : MonState) (name : String), (∀ r ∈ runs, r.1 ≠ name) →
    countKey name (runWorkerBodies runs st).workerExceptions
      = countKey name st.workerExceptions := by
  induction runs with
  | nil => intro st name _; rfl
  | cons r rest ih =>
      intro st name h
      have hstep : runWorkerBodies (r :: rest) st
          = runWorkerBodies rest (workThreadCatch r.1 r.2.1 r.2.2 st) := rfl
      rw [hstep, ih _ name (fun q hq => h q (List.mem_cons_of_mem r hq))]
      cases hf : r.2.2 with
      | none => rw [(workThreadCatch_excs r.1 r.2.1 st).1]
      | some e =>
          rw [(workThreadCatch_excs r.1 r.2.1 st).2 e, countKey_cons,
            if_neg (h r (List.mem_cons_self r rest))]
          omega

theorem countKey_runWorkerBodies_le_one
    (runs : List (String × Nat × Option String)) :
    ∀ (st : MonState) (name : String), (runs.map Prod.fst).Nodup →
    countKey name st.workerExceptions = 0 →
    countKey name (runWorkerBodies runs st).workerExceptions ≤ 1 := by
  induction runs with
  | nil =>
      intro st name _ h0
      show countKey name st.workerExceptions ≤ 1
      omega
  | cons r rest ih =>
      intro st name hnd h0
      rw [List.map_cons, List.nodup_cons] at hnd
      have hstep : runWorkerBodies (r :: rest) st
          = runWorkerBodies rest (workThreadCatch r.1 r.2.1 r.2.2 st) := rfl
      rw [hstep]
      by_cases hn : r.1 = name
      · have hrest : ∀ q ∈ rest, q.1 ≠ name := by
          intro q hq he
          exact hnd.1 (by rw [hn, ← he]; exact List.mem_map_of_mem Prod.fst hq)
        rw [countKey_runWorkerBodies_unchanged rest _ name hrest]
        cases hf : r.2.2 with
        | none =>
            rw [(workThreadCatch_excs r.1 r.2.1 st).1, h0]
            omega
        | some e =>
            rw [(workThreadCatch_excs r.1 r.2.1 st).2 e, countKey_cons, h0,
              if_pos hn]
      · have h0' : countKey name
            (workThreadCatch r.1 r.2.1 r.2.2 st).workerExceptions = 0 := by
          cases hf : r.2.2 with
          | none => rw [(workThreadCatch_excs r.1 r.2.1 st).1]; exact h0
          | some e =>
              rw [(workThreadCatch_excs r.1 r.2.1 st).2 e, countKey_cons,
                if_neg hn, h0]
        exact ih _ name hnd.2 h0'

theorem teardownStderr_complete (excs : List (String × String)) :
    ∀ p ∈ excs, ("Exception in thread " ++ p.1 ++ ":\n" ++ p.2 ++ "\n")
        ∈ teardownStderr excs := by
  intro p hp
  unfold teardownStderr
  exact List.mem_map_of_mem _ ((List.mergeSort_perm excs _).mem_iff.mpr hp)

/-- **C7.** A fault escaping a worker function is recorded keyed by
the worker's identity (its thread name) together with a status line
summarizing it, and a clean return records nothing; across any set of
worker runs with distinct names each name is recorded at most once;
and at teardown a non-empty fault set is written entry by entry (full
trace text included) to the diagnostic stream and the process exits
with the non-zero status 1, while an empty fault set exits cleanly. -/
theorem worker_faults_keyed_once_and_fatal :
    (∀ (name : String) (tid i : Nat) (e : String) (st : MonState),
        st.lineIndexes.lookup tid = some i →
        (workThreadCatch name tid (some e) st).workerExceptions
            = (name, e) :: st.workerExceptions ∧
        (workThreadCatch name tid (some e) st).tasks
            = st.tasks ++ [Task.status i ("*** Uncaught exception: " ++ e)] ∧
        (workThreadCatch name tid none st).workerExceptions
            = st.workerExceptions) ∧
    (∀ (runs : List (String × Nat × Option String)) (st : MonState)
        (name : String),
        (runs.map Prod.fst).Nodup → countKey name st.workerExceptions = 0 →
        countKey name (runWorkerBodies runs st).workerExceptions ≤ 1) ∧
    (∀ excs : List (String × String), excs ≠ [] →
        finalExitStatus excs = some 1 ∧ (1 : Nat) ≠ 0 ∧
        ∀ p ∈ excs, ("Exception in thread " ++ p.1 ++ ":\n" ++ p.2 ++ "\n")
            ∈ teardownStderr excs) ∧
    (∀ excs : List (String × String), excs = [] → finalExitStatus excs = none) := by
  refine ⟨?_, countKey_runWorkerBodies_le_one, ?_, ?_⟩
  · intro name tid i e st h
    refine ⟨(workThreadCatch_excs name tid st).2 e, ?_,
      (workThreadCatch_excs name tid st).1⟩
    exact @reportStatus_tasks tid i
      { st with workerExceptions := (name, e) :: st.workerExceptions } h _
  · intro excs hne
    refine ⟨?_, by omega, teardownStderr_complete excs⟩
    unfold finalExitStatus
    rw [if_neg (by simpa using hne)]
  · intro excs he
    subst he
    rfl

/-- Witness for C7: worker "w2" of three faults once; its key is
recorded once, and teardown reports it and exits with status 1. -/
theorem worker_faults_keyed_once_and_fatal_witness :
    countKey "w2" (MonState.workerExceptions (runWorkerBodies
        [("w1", 0, none), ("w2", 1, some "ValueError: boom"), ("w3", 2, none)]
        ⟨true, true, 3, 3, [(0, 0), (1, 1), (2, 2)], [0, 1, 2], [], []⟩)) ≤ 1 ∧
    finalExitStatus [("w2", "ValueError: boom")] = some 1 := by
  constructor
  · exact worker_faults_keyed_once_and_fatal.2.1
      [("w1", 0, none), ("w2", 1, some "ValueError: boom"), ("w3", 2, none)]
      ⟨true, true, 3, 3, [(0, 0), (1, 1), (2, 2)], [0, 1, 2], [], []⟩ "w2"
      (by decide) (by decide)
  · exact (worker_faults_keyed_once_and_fatal.2.2.1
      [("w2", "ValueError: boom")] (by decide)).1

theorem padToAux_parts : ∀ (k : Nat) (s : Screen),
    (padToAux k s).lines = s.lines ++ List.replicate k "" ∧
    (padToAux k s).lineAttrs = s.lineAttrs ++ List.replicate k LineAttr.normal := by
  intro k
  induction k with
  | zero => intro s; simp [padToAux]
  | succ k ih =>
      intro s
      obtain ⟨h1, h2⟩ := ih ⟨s.lines ++ [""], s.lineAttrs ++ [LineAttr.normal]⟩
      unfold padToAux
      constructor
      · rw [h1]
        simp [List.replicate_succ]
      · rw [h2]
        simp [List.replicate_succ]

theorem padTo_lines_length (s : Screen) (idx : Nat) :
    idx < (padTo s idx).lines.length := by
  unfold padTo
  rw [(padToAux_parts _ s).1, List.length_append, List.length_replicate]
  omega

theorem padTo_attrs_length (s : Screen) (idx : Nat)
    (hinv : s.lines.length = s.lineAttrs.length) :
    idx < (padTo s idx).lineAttrs.length := by
  unfold padTo
  rw [(padToAux_parts _ s).2, List.length_append, List.length_replicate]
  omega

theorem lineAt_padTo (s : Screen) (idx : Nat) :
    lineAt (padTo s idx) idx = lineAt s idx := by
  unfold padTo lineAt
  rw [(padToAux_parts _ s).1]
  by_cases h : idx < s.lines.length
  · rw [List.getD_eq_getElem?_getD, List.getD_eq_getElem?_getD,
      List.getElem?_append, if_pos h]
  · rw [List.getD_eq_getElem?_getD, List.getD_eq_getElem?_getD,
      List.getElem?_append_right (by omega), List.getElem?_replicate,
      if_pos (by omega), List.getElem?_eq_none (by omega)]
    rfl

theorem lineAt_doStatus (s : Screen) (idx : Nat) (text : String) :
    lineAt (doStatus s idx text) idx
      = if text = "\x00" then lineAt s idx else text := by
  unfold doStatus
  by_cases ht : text = "\x00"
  · rw [if_pos ht, if_pos ht]
    exact lineAt_padTo s idx
  · rw [if_neg ht, if_neg ht]
    show ((padTo s idx).lines.set idx text).getD idx "" = text
    rw [List.getD_eq_getElem?_getD,
      List.getElem?_set_self (padTo_lines_length s idx)]
    rfl

/-- **C8 (amended).** After the render actor processes, in order, a
worker's sequence of status reports for its line, the stored line text
equals the most recently reported non-sentinel text — the `"\x00"`
sentinel leaves the stored text unchanged — falling back to the
previously stored text (initially empty) when every report is the
sentinel. -/
theorem rendered_line_is_last_non_sentinel (reports : List String) :
    ∀ (s : Screen) (idx : Nat),
      lineAt (applyReports s idx reports) idx
        = lastNonNulFrom (lineAt s idx) reports := by
  induction reports with
  | nil => intro s idx; rfl
  | cons t rest ih =>
      intro s idx
      have hstep : applyReports s idx (t :: rest)
          = applyReports (doStatus s idx t) idx rest := rfl
      rw [hstep, ih (doStatus s idx t) idx, lineAt_doStatus]
      rfl

/-- Counterexample to C8 as stated: the worker reports
`"fetching url 1"` and then the `"\x00"` sentinel (as its checkpoint
does on every pause or stop); after the actor processes both, the
stored line is `"fetching url 1"`, not the most recently reported
text `"\x00"`. -/
theorem rendered_line_last_report_counterexample :
    lineAt (applyReports ⟨[], []⟩ 0 ["fetching url 1", "\x00"]) 0
        ≠ "\x00" ∧
    lineAt (applyReports ⟨[], []⟩ 0 ["fetching url 1", "\x00"]) 0
        = "fetching url 1" := by
  decide

/-- **C9.** An error escaping the render actor's main loop propagates
(ending the run) exactly when a stop is already in progress
(`_stop_event` cleared, i.e. `stopEventSet = false`); otherwise it is
swallowed: the handler returns a continuation state whose banner text
is the crashing message built from the error, with a forced redraw,
and with the stop event now cleared so a later Exit/Done can still
terminate the run cleanly. -/
theorem render_actor_fault_swallowed_unless_stopping :
    (∀ ename emsg, outputLoopHandleError false ename emsg
        = Except.error ename) ∧
    (∀ ename emsg, outputLoopHandleError true ename emsg
        = Except.ok (false, "*** " ++ ename ++ ":" ++ emsg ++ " *** Crashing.",
            true)) := by
  exact ⟨fun _ _ => rfl, fun _ _ => rfl⟩

/-- **C10.** The render actor treats a status report whose text is the
single NUL character as a control sentinel: processing it resets the
line's display attribute to normal while leaving the stored line text
unchanged (only the table growth to cover `idx` happens); any other
text replaces the stored line text and leaves the attributes alone. -/
theorem nul_sentinel_resets_attr_keeps_text :
    ∀ (s : Screen) (idx : Nat) (text : String),
      s.lines.length = s.lineAttrs.length →
      ((doStatus s idx "\x00").lines = (padTo s idx).lines ∧
       lineAt (doStatus s idx "\x00") idx = lineAt s idx ∧
       ((doStatus s idx "\x00").lineAttrs)[idx]?
          = some LineAttr.normal) ∧
      (text ≠ "\x00" →
       (doStatus s idx text).lineAttrs = (padTo s idx).lineAttrs ∧
       lineAt (doStatus s idx text) idx = text) := by
  intro s idx text hinv
  constructor
  · refine ⟨rfl, ?_, ?_⟩
    · rw [lineAt_doStatus, if_pos rfl]
    · show ((padTo s idx).lineAttrs.set idx LineAttr.normal)[idx]?
          = some LineAttr.normal
      exact List.getElem?_set_self (padTo_attrs_length s idx hinv)
  · intro ht
    refine ⟨?_, ?_⟩
    · unfold doStatus
      rw [if_neg ht]
    · rw [lineAt_doStatus, if_neg ht]

/-- Witness for C10: line 0 starts as `"busy"` in bold; the sentinel
resets the attribute to normal and keeps `"busy"`, while `"idle"`
replaces the text. -/
theorem nul_sentinel_resets_attr_keeps_text_witness :
    (doStatus ⟨["busy"], [LineAttr.bold]⟩ 0 "\x00").lines = ["busy"] ∧
    ((doStatus ⟨["busy"], [LineAttr.bold]⟩ 0 "\x00").lineAttrs)[0]?
        = some LineAttr.normal ∧
    lineAt (doStatus ⟨["busy"], [LineAttr.bold]⟩ 0 "idle") 0 = "idle" := by
  have h := nul_sentinel_resets_attr_keeps_text ⟨["busy"], [LineAttr.bold]⟩ 0
    "idle" rfl
  exact ⟨h.1.1.trans (by decide), h.1.2.2, (h.2 (by decide)).2⟩

end Canonize
